import Mathlib

/-!
Shallow embedding of the Hurdle Wordle evaluation environment
(`hurdle_wordle.py`): the feedback scorer `calculate_hurdle_feedback`,
the game engine `HurdleWordleEnv.step`, and the reward functions
`check_answer_reward_func`, `count_turns_reward_func` and
`partial_credit_reward_func`.

Modelling conventions:
* Python strings are modelled as `List Char` (the ASCII fragment is what
  the game ever manipulates; `str.lower`/`str.upper`, the regex classes
  `\w`, `\s`, `\d` and `str.strip` are modelled on ASCII characters);
* Python floats are modelled as exact rationals (`ℚ`); the reward
  expressions `0.2 * greens + 0.1 * yellows`, `1.0`, `0.0` become
  `1/5 * greens + 1/10 * yellows`, `1`, `0`;
* the mutable python lists `secret_used` / `guess_used` become `List Bool`
  values threaded through `List.foldl` over the same index ranges the
  source iterates over;
* fallible operations (regex search, `list[-1]` indexing) return `Option`.
-/

/-- ASCII model of Python `str.lower`, applied characterwise. -/
def pyLower (c : Char) : Char :=
  if 'A' ≤ c ∧ c ≤ 'Z' then Char.ofNat (c.toNat + 32) else c

/-- ASCII model of Python `str.upper`, applied characterwise. -/
def pyUpper (c : Char) : Char :=
  if 'a' ≤ c ∧ c ≤ 'z' then Char.ofNat (c.toNat - 32) else c

/-- ASCII model of the regex class `\w` (word characters) used in
`re.search(r"\[(\w+)\]", action)`. -/
def isWordChar (c : Char) : Bool :=
  c.isAlpha || c.isDigit || c == '_'

/-- ASCII model of Python whitespace (`str.strip`, regex `\s`). -/
def isPySpace (c : Char) : Bool :=
  c == ' ' || c == '\t' || c == '\n' || c == '\r' || c == '\x0b' || c == '\x0c'

/-- The decimal digit character for `d < 10`. -/
def digitChar (d : Nat) : Char := Char.ofNat (48 + d)

/-- Decimal rendering of a natural number, most significant digit first;
models Python's `f"{n}"` formatting of a non-negative int. -/
def natDigits (n : Nat) : List Char :=
  if _h : n < 10 then [digitChar n]
  else natDigits (n / 10) ++ [digitChar (n % 10)]
termination_by n
decreasing_by exact Nat.div_lt_self (by omega) (by omega)

/-- Numeric value of a decimal digit character. -/
def digitVal (c : Char) : Nat := c.toNat - 48

/-- Models Python's `int` applied to a non-empty string of decimal digits
(the text captured by the regex group `(\d+)`). -/
def parseNat (ds : List Char) : Nat :=
  ds.foldl (fun a c => a * 10 + digitVal c) 0

/-- `listStartsWith n h` decides whether `n` is a prefix of `h`. -/
def listStartsWith : List Char → List Char → Bool
  | [], _ => true
  | _ :: _, [] => false
  | n :: ns, h :: hs => n == h && listStartsWith ns hs

/-- `containsSub n h` decides whether `n` occurs contiguously inside `h`;
models Python's `n in h` on strings. -/
def containsSub : List Char → List Char → Bool
  | needle, [] => needle.isEmpty
  | needle, h :: hs => listStartsWith needle (h :: hs) || containsSub needle hs

/-- The suffix of the text after the rightmost occurrence of `marker`;
models Python's `text.split(marker)[-1]` when `marker` occurs in `text`
(exact for markers that do not overlap themselves, as is the case for the
only marker used, `"Feedback:"`). -/
def afterLastMarker (marker : List Char) : List Char → Option (List Char)
  | [] => none
  | h :: t =>
    match afterLastMarker marker t with
    | some r => some r
    | none =>
      if listStartsWith marker (h :: t) then some ((h :: t).drop marker.length)
      else none

/-- Models Python's `str.strip()` (ASCII whitespace). -/
def pyStrip (s : List Char) : List Char :=
  ((s.dropWhile isPySpace).reverse.dropWhile isPySpace).reverse

/-- Attempt at one position of the regex `label ++ r"\s*(\d+)"`: the label,
greedily-skipped whitespace, then a non-empty maximal run of digits.  Since
whitespace and digit characters are disjoint, regex backtracking over
`\s*` cannot produce any other match here. -/
def tryLabeledNatHere (label s : List Char) : Option Nat :=
  if listStartsWith label s then
    let afterSpaces := (s.drop label.length).dropWhile isPySpace
    let ds := afterSpaces.takeWhile Char.isDigit
    if ds.isEmpty then none else some (parseNat ds)
  else none

/-- Leftmost match of `label ++ r"\s*(\d+)"`, as computed by `re.search`:
positions are tried left to right and the first full match wins. -/
def findLabeledNat (label : List Char) : List Char → Option Nat
  | [] => none
  | h :: t =>
    match tryLabeledNatHere label (h :: t) with
    | some n => some n
    | none => findLabeledNat label t

/-! ## The scorer `calculate_hurdle_feedback` (src/hurdle_wordle.py:78-117) -/

/-- One iteration of the first loop of `calculate_hurdle_feedback`
(`for i in range(min(len(guess), len(secret)))`); the state is
`(greens, secret_used, guess_used)`. -/
def greenStep (guess secret : List Char) (acc : Nat × List Bool × List Bool)
    (i : Nat) : Nat × List Bool × List Bool :=
  if guess.getD i ' ' = secret.getD i ' ' then
    (acc.1 + 1, acc.2.1.set i true, acc.2.2.set i true)
  else acc

/-- The green pass: count exact-position matches and mark both sides used.
`secret_used` and `guess_used` start as all-`False` lists of the
respective lengths, as in the source. -/
def greenPass (guess secret : List Char) : Nat × List Bool × List Bool :=
  (List.range (min guess.length secret.length)).foldl (greenStep guess secret)
    (0, List.replicate secret.length false, List.replicate guess.length false)

/-- The inner loop of the yellow pass (`for j in range(len(secret))` with
`break`): the first not-yet-used position of `secret` holding `letter`. -/
def findUnusedIndex (secret : List Char) (su : List Bool) (letter : Char) :
    Option Nat :=
  (List.range secret.length).find? fun j =>
    !(su.getD j true) && decide (secret.getD j ' ' = letter)

/-- One iteration of the second loop of `calculate_hurdle_feedback`
(`for i in range(len(guess))`); the state is `(yellows, secret_used)`
(`guess_used` is only read in this pass). -/
def yellowStep (guess secret : List Char) (gu : List Bool)
    (acc : Nat × List Bool) (i : Nat) : Nat × List Bool :=
  if gu.getD i true then acc
  else
    match findUnusedIndex secret acc.2 (guess.getD i ' ') with
    | some j => (acc.1 + 1, acc.2.set j true)
    | none => acc

/-- The yellow pass over all guess positions. -/
def yellowPass (guess secret : List Char) (gu su : List Bool) :
    Nat × List Bool :=
  (List.range guess.length).foldl (yellowStep guess secret gu) (0, su)

/-- Embedding of `calculate_hurdle_feedback(guess, secret)`: lowercase both
inputs, run the green pass, then the yellow pass, and return
`(greens, yellows)`.  Total by construction, mirroring the source's
`min`-bounded first loop. -/
def calculate_hurdle_feedback (guess0 secret0 : List Char) : Nat × Nat :=
  let guess := guess0.map pyLower
  let secret := secret0.map pyLower
  let g := greenPass guess secret
  (g.1, (yellowPass guess secret g.2.2 g.2.1).1)

/-! ## Reference algorithm from the specification (spec §4.1)

These definitions follow the spec's words, to be compared with the
source-derived `calculate_hurdle_feedback`. -/

/-- Spec §4.1 green pass: the number of indices `i` with
`guess[i] == secret[i]`. -/
def specGreens (guess secret : List Char) : Nat :=
  ((guess.zip secret).filter fun p => decide (p.1 = p.2)).length

/-- Guess letters at the positions left unconsumed by the spec's green
pass, in guess order. -/
def specUnmatchedGuess (guess secret : List Char) : List Char :=
  (((guess.zip secret).filter fun p => !decide (p.1 = p.2)).map Prod.fst)

/-- Secret letters at the positions left unconsumed by the spec's green
pass, in secret order. -/
def specUnmatchedSecret (guess secret : List Char) : List Char :=
  (((guess.zip secret).filter fun p => !decide (p.1 = p.2)).map Prod.snd)

/-- Spec §4.1 yellow pass: each unconsumed guess letter, left to right,
claims the first (lowest-index) unconsumed secret letter equal to it, if
any; `List.erase` removes exactly the first occurrence. -/
def specYellows : List Char → List Char → Nat
  | [], _ => 0
  | g :: gs, pool =>
    if g ∈ pool then specYellows gs (pool.erase g) + 1
    else specYellows gs pool

/-- The spec's two-pass reference feedback. -/
def spec_feedback (guess secret : List Char) : Nat × Nat :=
  (specGreens guess secret,
   specYellows (specUnmatchedGuess guess secret) (specUnmatchedSecret guess secret))

/-- The letters of `l` at the positions not marked in the mask `m`
(pairing positionwise, in order).  Used to relate the `used`-array loops
of the source to the spec's multiset-style description. -/
def availLetters : List Char → List Bool → List Char
  | [], _ => []
  | _ :: _, [] => []
  | c :: cs, b :: bs =>
    if b then availLetters cs bs else c :: availLetters cs bs

/-- The positionwise equality mask produced by the green pass on the
first `min` positions. -/
def eqMask (guess secret : List Char) : List Bool :=
  List.zipWith (fun a b => decide (a = b)) guess secret

/-! ## The game engine `HurdleWordleEnv.step` (src/hurdle_wordle.py:120-206) -/

/-- Terminal outcome of an episode. -/
inductive Outcome
  | won
  | lost
deriving DecidableEq

/-- The episode state (spec §3 `EpisodeState`): the fields of
`self.state.game_state` used by `step`, plus the terminal outcome and the
error allowance of the surrounding textarena `State`. -/
structure GameState where
  secret_word : List Char
  word_length : Nat
  num_guesses : Nat
  guess_history : List (List Char × (Nat × Nat))
  outcome : Option Outcome
  error_allowance : Nat
deriving DecidableEq

/-- The turn result surfaced to the orchestrator: `is_done` and the
`info` fields (`reward`, `reason`) together with the feedback observation
message added for valid guesses. -/
structure TurnResult where
  is_done : Bool
  reward : ℚ
  reason : List Char
  message : List Char
deriving DecidableEq

/-- Leftmost match of `re.search(r"\[(\w+)\]", action)`, returning the
captured group: scanning left to right, a match at a position requires a
`'['`, a non-empty maximal run of word characters, then a `']'` (greedy
`\w+` cannot backtrack into a successful match because a shorter run is
followed by a word character, not `']'`). -/
def findBracketToken : List Char → Option (List Char)
  | [] => none
  | c :: rest =>
    if c = '[' then
      let run := rest.takeWhile isWordChar
      if run.isEmpty then findBracketToken rest
      else
        match rest.drop run.length with
        | ']' :: _ => some run
        | _ => findBracketToken rest
    else findBracketToken rest

/-- Reason of the format-check failure (src line 154). -/
def wrongFormatReason : List Char :=
  "You tried submitting a word in the wrong format. Please make sure to use squared brackets.".data

/-- Reason of the length-check failure (src line 163). -/
def lengthViolationReason (L : Nat) : List Char :=
  "Your word must be exactly ".data ++ natDigits L ++ " letters.".data

/-- First line of every valid-guess observation (src lines 181/191/200):
`You submitted [WORD].\nFeedback: greens: g, yellows: y`. -/
def feedbackLine (word : List Char) (greens yellows : Nat) : List Char :=
  "You submitted [".data ++ word.map pyUpper ++ "].\nFeedback: greens: ".data
    ++ natDigits greens ++ ", yellows: ".data ++ natDigits yellows

/-- Win reason (src line 183). -/
def winReason : List Char :=
  "Congratulations! You guessed the word correctly!".data

/-- Loss reason with the revealed uppercase secret (src line 193). -/
def loseReason (secret : List Char) : List Char :=
  "Game over! The word was \x27".data ++ secret.map pyUpper ++ "\x27.".data

/-- Embedding of `HurdleWordleEnv.step`.

The surrounding textarena `State` object is external to this repository;
its effects are modelled from the spec:
* `set_invalid_move` consumes one unit of `error_allowance` and the
  subsequent `state.step()` reports a non-terminal turn (§4.2/§4.9: a
  malformed submission does not change state but consumes one unit of
  `error_allowance`; the engine does not terminate on malformed input),
  and `info["reward"]` surfaces as `0.0` for such non-terminal turns;
* `set_outcome` records the terminal outcome, after which `state.step()`
  reports `is_done = true`.

Everything else (extraction, validation order, history append, win /
exhaustion / continue branching, rewards, messages) is translated
directly from src/hurdle_wordle.py lines 147-206. -/
def step (st : GameState) (action : List Char) : GameState × TurnResult :=
  match findBracketToken action with
  | none =>
    ({ st with error_allowance := st.error_allowance - 1 },
     { is_done := false, reward := 0, reason := wrongFormatReason, message := [] })
  | some tok =>
    let word := tok.map pyLower
    if word.length ≠ st.word_length then
      ({ st with error_allowance := st.error_allowance - 1 },
       { is_done := false, reward := 0,
         reason := lengthViolationReason st.word_length, message := [] })
    else
      let fb := calculate_hurdle_feedback word st.secret_word
      let hist := st.guess_history ++ [(word, fb)]
      if word.map pyLower = st.secret_word.map pyLower then
        ({ st with guess_history := hist, outcome := some Outcome.won },
         { is_done := true, reward := 1, reason := winReason,
           message := feedbackLine word fb.1 fb.2
             ++ ('\n' :: winReason) })
      else if st.num_guesses ≤ hist.length then
        ({ st with guess_history := hist, outcome := some Outcome.lost },
         { is_done := true, reward := 0, reason := loseReason st.secret_word,
           message := feedbackLine word fb.1 fb.2
             ++ ('\n' :: loseReason st.secret_word) })
      else
        ({ st with guess_history := hist },
         { is_done := false,
           reward := (1/5 : ℚ) * fb.1 + (1/10 : ℚ) * fb.2,
           reason := [], message := feedbackLine word fb.1 fb.2 })

/-- Embedding of the episode state right after `HurdleWordleEnv.reset`
(spec §6: empty history, no outcome, `error_allowance = 10`). -/
def resetState (secret : List Char) (L M : Nat) : GameState :=
  { secret_word := secret, word_length := L, num_guesses := M,
    guess_history := [], outcome := none, error_allowance := 10 }

/-- Modelled from the spec: an episode run.  The orchestrator invokes
`submit` once per agent turn and does not invoke it again after
termination (§5); the textarena `State`, external to this repository,
enforces that lifecycle.  Hence actions are applied only while no
terminal outcome is set. -/
def runEpisode (st : GameState) : List (List Char) → GameState
  | [] => st
  | a :: as =>
    if st.outcome = none then runEpisode (step st a).1 as else st

/-- A concrete fresh episode on the secret `plant`, used by witnesses. -/
def demoState0 : GameState := resetState "plant".data 5 8

/-- A concrete episode with seven guesses already recorded, used by
witnesses exercising the last attempt. -/
def demoState7 : GameState :=
  { secret_word := "plant".data, word_length := 5, num_guesses := 8,
    guess_history :=
      [("crane".data, (0, 1)), ("audio".data, (1, 0)), ("moist".data, (0, 2)),
       ("blink".data, (1, 1)), ("grump".data, (0, 1)), ("sword".data, (0, 0)),
       ("quick".data, (0, 0))],
    outcome := none, error_allowance := 10 }

/-! ## Reward functions (src/hurdle_wordle.py:46-75) -/

/-- Chat roles occurring in a completion transcript. -/
inductive Role
  | system
  | user
  | assistant
deriving DecidableEq

/-- One transcript entry. -/
structure Message where
  role : Role
  content : List Char
deriving DecidableEq

/-- Embedding of `check_answer_reward_func`.  `parser.parse_answer` is the
external answer-extraction collaborator (spec §6: it yields the literal
guess content between the recognized tags); its result is passed in as
`parsedGuess` (`none` when no guess could be extracted).  The source
compares it to `"[" + answer + "]"`. -/
def check_answer_reward_func (parsedGuess : Option (List Char))
    (answer : List Char) : ℚ :=
  match parsedGuess with
  | some g => if g = '[' :: (answer ++ [']']) then 1 else 0
  | none => 0

/-- The welcome marker tested by `count_turns_reward_func` (src line 54). -/
def welcomeMarker : List Char := "Welcome to Hurdle Wordle!".data

/-- Embedding of `count_turns_reward_func`: count assistant messages,
discount a leading welcome message, and divide the correctness reward by
`num_turns + 1`. -/
def count_turns_reward_func (parsedGuess : Option (List Char))
    (completion : List Message) (answer : List Char) : ℚ :=
  let assistant_messages := completion.filter fun m => decide (m.role = Role.assistant)
  let num_turns : Nat :=
    match assistant_messages with
    | m :: _ =>
      if containsSub welcomeMarker m.content then assistant_messages.length - 1
      else assistant_messages.length
    | [] => assistant_messages.length
  check_answer_reward_func parsedGuess answer / ((num_turns : ℚ) + 1)

/-- The feedback marker (src lines 39/65). -/
def feedbackMarker : List Char := "Feedback:".data

/-- Label of the greens count in the feedback regex (src line 68). -/
def greensLabel : List Char := "greens:".data

/-- Label of the yellows count in the feedback regex (src line 69). -/
def yellowsLabel : List Char := "yellows:".data

/-- Embedding of `partial_credit_reward_func`.  `parser.get_user_messages`
is modelled as filtering the transcript for user-role entries (spec §6:
the feedback-text interface isolates the substring after the literal
marker `Feedback:` from environment messages).  Python's `[-1]` indexing
raises on an empty list, hence the `Option` result. -/
def partial_credit_reward_func (completion : List Message) : Option ℚ :=
  match (completion.filter fun m => decide (m.role = Role.user)).getLast? with
  | none => none
  | some m =>
    let s := pyStrip m.content
    if containsSub feedbackMarker s then
      match afterLastMarker feedbackMarker s with
      | some rest =>
        let line := pyStrip rest
        match findLabeledNat greensLabel line, findLabeledNat yellowsLabel line with
        | some g, some y => some ((1/5 : ℚ) * g + (1/10 : ℚ) * y)
        | _, _ => some 0
      | none => some 0
    else some 0

/-- The unit tests' transcript for `count_turns_reward_func`: one welcome
turn, two guessing turns, a win on the second. -/
def demoCompletion8 : List Message :=
  [⟨Role.assistant, "Welcome to Hurdle Wordle! You need to guess...".data⟩,
   ⟨Role.assistant, "<guess>[crane]</guess>".data⟩,
   ⟨Role.user, "Feedback: greens: 0, yellows: 1".data⟩,
   ⟨Role.assistant, "<guess>[plant]</guess>".data⟩,
   ⟨Role.user, "Congratulations! You guessed the word correctly!".data⟩]

/-- The unit tests' transcript for `partial_credit_reward_func`: the last
environment message carries feedback `greens: 1, yellows: 2`. -/
def demoCompletion9 : List Message :=
  [⟨Role.assistant, "You are playing Hurdle Wordle...".data⟩,
   ⟨Role.assistant, "<guess>[crane]</guess>".data⟩,
   ⟨Role.user, "You submitted [CRANE].\nFeedback: greens: 1, yellows: 2".data⟩]

/-- A transcript whose last environment message has no `Feedback:` marker. -/
def demoNoFeedback9 : List Message :=
  [⟨Role.assistant, "<guess>[invalidword]</guess>".data⟩,
   ⟨Role.user, "\x27invalidword\x27 is not a valid word.".data⟩]


/-! ## Recursion equations for the scorer's loops -/

theorem findUnusedIndex_nil_secret (su : List Bool) (letter : Char) :
    findUnusedIndex [] su letter = none := rfl

theorem findUnusedIndex_nil_mask (secret : List Char) (letter : Char) :
    findUnusedIndex secret [] letter = none := by
  refine List.find?_eq_none.mpr fun j _ => ?_
  simp

theorem findUnusedIndex_cons (c : Char) (cs : List Char) (b : Bool)
    (bs : List Bool) (letter : Char) :
    findUnusedIndex (c :: cs) (b :: bs) letter =
      if !b && decide (c = letter) then some 0
      else (findUnusedIndex cs bs letter).map Nat.succ := by
  have hlen : (c :: cs).length = cs.length + 1 := rfl
  unfold findUnusedIndex
  rw [hlen, List.range_succ_eq_map]
  by_cases hb : (!b && decide (c = letter)) = true
  · rw [List.find?_cons_of_pos, if_pos hb]
    simpa using hb
  · rw [List.find?_cons_of_neg, if_neg hb, List.find?_map]
    · congr 1
    · simpa using hb

theorem yellowPass_nil (secret : List Char) (gu su : List Bool) :
    yellowPass [] secret gu su = (0, su) := rfl

theorem yellow_fold_shift (c : Char) (cs secret : List Char) (b : Bool)
    (bs : List Bool) :
    ∀ (k y : Nat) (su : List Bool),
      (List.range k).foldl
          (fun acc i => yellowStep (c :: cs) secret (b :: bs) acc (i + 1)) (y, su)
        = (((List.range k).foldl (yellowStep cs secret bs) (0, su)).1 + y,
           ((List.range k).foldl (yellowStep cs secret bs) (0, su)).2) := by
  intro k
  induction k with
  | zero => intro y su; simp
  | succ k ih =>
    intro y su
    rw [List.range_succ, List.foldl_append, List.foldl_append, ih]
    set F := (List.range k).foldl (yellowStep cs secret bs) (0, su) with hF
    simp only [List.foldl_cons, List.foldl_nil]
    show yellowStep (c :: cs) secret (b :: bs) (F.1 + y, F.2) (k + 1)
      = ((yellowStep cs secret bs F k).1 + y, (yellowStep cs secret bs F k).2)
    unfold yellowStep
    simp only [List.getD_cons_succ]
    cases hgu : bs.getD k true
    · simp only [Bool.false_eq_true, if_false]
      rcases hfind : findUnusedIndex secret F.2 (cs.getD k ' ') with _ | j
      · rfl
      · show (F.1 + y + 1, F.2.set j true) = (F.1 + 1 + y, F.2.set j true)
        rw [Nat.add_right_comm]
    · simp

theorem yellowPass_cons (c : Char) (cs secret : List Char) (b : Bool)
    (bs su : List Bool) :
    yellowPass (c :: cs) secret (b :: bs) su =
      if b then yellowPass cs secret bs su
      else
        match findUnusedIndex secret su c with
        | some j =>
          ((yellowPass cs secret bs (su.set j true)).1 + 1,
           (yellowPass cs secret bs (su.set j true)).2)
        | none => yellowPass cs secret bs su := by
  unfold yellowPass
  have hlen : (c :: cs).length = cs.length + 1 := rfl
  rw [hlen, List.range_succ_eq_map, List.foldl_cons, List.foldl_map]
  have hstep0 : yellowStep (c :: cs) secret (b :: bs) (0, su) 0
      = if b then (0, su)
        else
          match findUnusedIndex secret su c with
          | some j => (1, su.set j true)
          | none => (0, su) := by
    unfold yellowStep
    simp only [List.getD_cons_zero]
  rw [hstep0]
  cases b
  · simp only [Bool.false_eq_true, if_false]
    rcases hfind : findUnusedIndex secret su c with _ | j
    · simpa using yellow_fold_shift c cs secret false bs cs.length 0 su
    · simpa using yellow_fold_shift c cs secret false bs cs.length 1 (su.set j true)
  · simpa using yellow_fold_shift c cs secret true bs cs.length 0 su

theorem greenPass_nil_left (secret : List Char) :
    greenPass [] secret = (0, List.replicate secret.length false, []) := by
  simp [greenPass]

theorem greenPass_nil_right (guess : List Char) :
    greenPass guess [] = (0, [], List.replicate guess.length false) := by
  simp [greenPass]

theorem green_fold_shift (a b : Char) (as bs : List Char) :
    ∀ (k c : Nat) (x y : Bool) (s g : List Bool),
      (List.range k).foldl
          (fun acc i => greenStep (a :: as) (b :: bs) acc (i + 1)) (c, x :: s, y :: g)
        = (((List.range k).foldl (greenStep as bs) (0, s, g)).1 + c,
           x :: ((List.range k).foldl (greenStep as bs) (0, s, g)).2.1,
           y :: ((List.range k).foldl (greenStep as bs) (0, s, g)).2.2) := by
  intro k
  induction k with
  | zero => intro c x y s g; simp
  | succ k ih =>
    intro c x y s g
    rw [List.range_succ, List.foldl_append, List.foldl_append, ih]
    set F := (List.range k).foldl (greenStep as bs) (0, s, g) with hF
    simp only [List.foldl_cons, List.foldl_nil]
    show greenStep (a :: as) (b :: bs) (F.1 + c, x :: F.2.1, y :: F.2.2) (k + 1)
      = ((greenStep as bs F k).1 + c,
         x :: (greenStep as bs F k).2.1, y :: (greenStep as bs F k).2.2)
    unfold greenStep
    simp only [List.getD_cons_succ]
    by_cases heq : as.getD k ' ' = bs.getD k ' '
    · simp only [if_pos heq, List.set_cons_succ]
      show (F.1 + c + 1, x :: F.2.1.set k true, y :: F.2.2.set k true) = _
      rw [Nat.add_right_comm]
    · simp only [if_neg heq]

theorem greenPass_cons (a b : Char) (as bs : List Char) :
    greenPass (a :: as) (b :: bs) =
      if a = b then
        ((greenPass as bs).1 + 1,
         true :: (greenPass as bs).2.1, true :: (greenPass as bs).2.2)
      else
        ((greenPass as bs).1,
         false :: (greenPass as bs).2.1, false :: (greenPass as bs).2.2) := by
  unfold greenPass
  have hmin : min (a :: as).length (b :: bs).length
      = min as.length bs.length + 1 := by
    simp [Nat.succ_min_succ]
  rw [hmin, List.range_succ_eq_map, List.foldl_cons, List.foldl_map]
  have hrep1 : List.replicate (b :: bs).length false
      = false :: List.replicate bs.length false := rfl
  have hrep2 : List.replicate (a :: as).length false
      = false :: List.replicate as.length false := rfl
  rw [hrep1, hrep2]
  have hstep0 : greenStep (a :: as) (b :: bs)
        (0, false :: List.replicate bs.length false,
         false :: List.replicate as.length false) 0
      = if a = b then
          (1, true :: List.replicate bs.length false,
           true :: List.replicate as.length false)
        else
          (0, false :: List.replicate bs.length false,
           false :: List.replicate as.length false) := by
    unfold greenStep
    simp only [List.getD_cons_zero]
    by_cases heq : a = b
    · simp [if_pos heq]
    · simp [if_neg heq]
  rw [hstep0]
  by_cases heq : a = b
  · rw [if_pos heq, if_pos heq]
    simpa using green_fold_shift a b as bs (min as.length bs.length) 1 true true
      (List.replicate bs.length false) (List.replicate as.length false)
  · rw [if_neg heq, if_neg heq]
    simpa using green_fold_shift a b as bs (min as.length bs.length) 0 false false
      (List.replicate bs.length false) (List.replicate as.length false)

/-! ## Relating the used-array loops to the spec's letter pools -/

theorem findUnusedIndex_eq_none_iff (letter : Char) :
    ∀ (secret : List Char) (su : List Bool),
      findUnusedIndex secret su letter = none ↔
        letter ∉ availLetters secret su := by
  intro secret
  induction secret with
  | nil => intro su; simp [findUnusedIndex_nil_secret, availLetters]
  | cons c cs ih =>
    intro su
    cases su with
    | nil => simp [findUnusedIndex_nil_mask, availLetters]
    | cons b bs =>
      rw [findUnusedIndex_cons]
      by_cases hb : (!b && decide (c = letter)) = true
      · obtain ⟨h1, h2⟩ := (Bool.and_eq_true _ _).mp hb
        have hbf : b = false := by rcases b <;> simp_all
        have hcl : c = letter := of_decide_eq_true h2
        subst hbf
        simp [if_pos hb, availLetters, hcl]
      · rw [if_neg hb, Option.map_eq_none']
        cases b with
        | true => simpa [availLetters] using ih bs
        | false =>
          have hcl : c ≠ letter := by
            intro h
            exact hb (by simp [h])
          simp [availLetters, hcl, Ne.symm hcl, ih bs]

theorem availLetters_set_of_findUnusedIndex (letter : Char) :
    ∀ (secret : List Char) (su : List Bool) (j : Nat),
      findUnusedIndex secret su letter = some j →
        letter ∈ availLetters secret su ∧
          availLetters secret (su.set j true)
            = (availLetters secret su).erase letter := by
  intro secret
  induction secret with
  | nil => intro su j h; simp [findUnusedIndex_nil_secret] at h
  | cons c cs ih =>
    intro su j h
    cases su with
    | nil => rw [findUnusedIndex_nil_mask] at h; exact absurd h (by simp)
    | cons b bs =>
      rw [findUnusedIndex_cons] at h
      by_cases hb : (!b && decide (c = letter)) = true
      · rw [if_pos hb] at h
        have hj : j = 0 := by simpa using h.symm
        obtain ⟨h1, h2⟩ := (Bool.and_eq_true _ _).mp hb
        have hbf : b = false := by rcases b <;> simp_all
        have hcl : c = letter := of_decide_eq_true h2
        subst hbf hj hcl
        constructor
        · simp [availLetters]
        · simp [availLetters, List.set_cons_zero, List.erase_cons_head]
      · rw [if_neg hb, Option.map_eq_some'] at h
        rcases h with ⟨j', hrec, hj⟩
        rcases ih bs j' hrec with ⟨hmem, heq⟩
        subst hj
        cases b with
        | true =>
          refine ⟨by simpa [availLetters] using hmem, ?_⟩
          show availLetters (c :: cs) ((true :: bs).set (j' + 1) true) = _
          rw [List.set_cons_succ]
          simpa [availLetters] using heq
        | false =>
          have hcl : c ≠ letter := by
            intro h
            exact hb (by simp [h])
          refine ⟨by simp [availLetters, hmem], ?_⟩
          show availLetters (c :: cs) ((false :: bs).set (j' + 1) true) = _
          rw [List.set_cons_succ]
          have herase : (c :: availLetters cs bs).erase letter
              = c :: (availLetters cs bs).erase letter :=
            List.erase_cons_tail (by simpa using hcl)
          simp [availLetters, heq, herase]

/-- The yellow pass counts exactly what the spec's pool-based yellow pass
counts, on the letters left available by the masks. -/
theorem yellowPass_eq_specYellows (secret : List Char) :
    ∀ (guess : List Char) (gu su : List Bool), gu.length = guess.length →
      (yellowPass guess secret gu su).1
        = specYellows (availLetters guess gu) (availLetters secret su) := by
  intro guess
  induction guess with
  | nil =>
    intro gu su h
    have : gu = [] := List.length_eq_zero.mp h
    subst this
    simp [yellowPass_nil, availLetters, specYellows]
  | cons c cs ih =>
    intro gu su h
    cases gu with
    | nil => simp at h
    | cons b bs =>
      have hlen : bs.length = cs.length := by simpa using h
      rw [yellowPass_cons]
      cases b with
      | true =>
        simpa [availLetters] using ih bs su hlen
      | false =>
        rcases hfind : findUnusedIndex secret su c with _ | j
        · have hmem : c ∉ availLetters secret su :=
            (findUnusedIndex_eq_none_iff c secret su).mp hfind
          simp only [availLetters, Bool.false_eq_true, if_false, specYellows,
            if_neg hmem]
          exact ih bs su hlen
        · rcases availLetters_set_of_findUnusedIndex c secret su j hfind with
            ⟨hmem, heq⟩
          simp only [availLetters, Bool.false_eq_true, if_false, specYellows,
            if_pos hmem]
          rw [ih bs (su.set j true) hlen, heq]

/-- Full characterization of the green pass: the count is the number of
positionwise equal letters, and the two used-arrays are the equality mask
padded with `false` up to the respective lengths. -/
theorem greenPass_eq :
    ∀ guess secret : List Char,
      greenPass guess secret =
        (specGreens guess secret,
         eqMask guess secret
           ++ List.replicate (secret.length - min guess.length secret.length) false,
         eqMask guess secret
           ++ List.replicate (guess.length - min guess.length secret.length) false) := by
  intro guess
  induction guess with
  | nil =>
    intro secret
    rw [greenPass_nil_left]
    simp [specGreens, eqMask]
  | cons a as ih =>
    intro secret
    cases secret with
    | nil =>
      rw [greenPass_nil_right]
      simp [specGreens, eqMask]
    | cons b bs =>
      rw [greenPass_cons, ih bs]
      have hgreens : specGreens (a :: as) (b :: bs)
          = if a = b then specGreens as bs + 1 else specGreens as bs := by
        by_cases hab : a = b <;>
          simp [specGreens, List.zip_cons_cons, List.filter_cons, hab]
      have hmask : eqMask (a :: as) (b :: bs)
          = decide (a = b) :: eqMask as bs := by
        simp [eqMask]
      have hsub1 : (b :: bs).length - min (a :: as).length (b :: bs).length
          = bs.length - min as.length bs.length := by
        simp [Nat.succ_min_succ]
      have hsub2 : (a :: as).length - min (a :: as).length (b :: bs).length
          = as.length - min as.length bs.length := by
        simp [Nat.succ_min_succ]
      rw [hgreens, hmask, hsub1, hsub2]
      by_cases hab : a = b
      · simp [hab]
      · simp [hab]

theorem availLetters_eqMask_fst :
    ∀ guess secret : List Char, guess.length = secret.length →
      availLetters guess (eqMask guess secret) = specUnmatchedGuess guess secret := by
  intro guess
  induction guess with
  | nil => intro secret h; simp [availLetters, specUnmatchedGuess, eqMask]
  | cons a as ih =>
    intro secret h
    cases secret with
    | nil => simp at h
    | cons b bs =>
      have hlen : as.length = bs.length := by simpa using h
      by_cases hab : a = b <;>
        simpa [eqMask, availLetters, specUnmatchedGuess, List.zip_cons_cons,
          List.filter_cons, hab] using ih bs hlen

theorem availLetters_eqMask_snd :
    ∀ guess secret : List Char, guess.length = secret.length →
      availLetters secret (eqMask guess secret) = specUnmatchedSecret guess secret := by
  intro guess
  induction guess with
  | nil =>
    intro secret h
    have : secret = [] := List.length_eq_zero.mp h.symm
    subst this
    simp [availLetters, specUnmatchedSecret, eqMask]
  | cons a as ih =>
    intro secret h
    cases secret with
    | nil => simp at h
    | cons b bs =>
      have hlen : as.length = bs.length := by simpa using h
      by_cases hab : a = b <;>
        simpa [eqMask, availLetters, specUnmatchedSecret, List.zip_cons_cons,
          List.filter_cons, hab] using ih bs hlen

theorem eqMask_length (guess secret : List Char) :
    (eqMask guess secret).length = min guess.length secret.length := by
  simp [eqMask]

/-- `calculate_hurdle_feedback` in terms of the spec-style quantities, for
arbitrary (possibly unequal-length) inputs. -/
theorem calculate_hurdle_feedback_eq (guess secret : List Char) :
    calculate_hurdle_feedback guess secret =
      (specGreens (guess.map pyLower) (secret.map pyLower),
       specYellows
         (availLetters (guess.map pyLower)
           (eqMask (guess.map pyLower) (secret.map pyLower)
             ++ List.replicate (guess.length - min guess.length secret.length) false))
         (availLetters (secret.map pyLower)
           (eqMask (guess.map pyLower) (secret.map pyLower)
             ++ List.replicate (secret.length - min guess.length secret.length) false))) := by
  have hlen : (eqMask (List.map pyLower guess) (List.map pyLower secret)
      ++ List.replicate (guess.length - min guess.length secret.length) false).length
      = (List.map pyLower guess).length := by
    rw [List.length_append, eqMask_length, List.length_replicate]
    simp only [List.length_map]
    have := Nat.min_le_left guess.length secret.length
    omega
  simp only [calculate_hurdle_feedback, greenPass_eq, List.length_map]
  rw [yellowPass_eq_specYellows (List.map pyLower secret) (List.map pyLower guess)
    _ _ hlen]

/-- `List.map pyLower` is the identity on lowercase-normalized strings. -/
theorem map_pyLower_eq_self {l : List Char} (h : ∀ c ∈ l, pyLower c = c) :
    l.map pyLower = l := by
  induction l with
  | nil => rfl
  | cons c cs ih =>
    simp only [List.map_cons, h c (by simp)]
    rw [ih fun x hx => h x (by simp [hx])]

/-- C1.  For equal-length lowercase-normalized strings,
`calculate_hurdle_feedback` returns exactly the FeedbackCount of the
spec's two-pass reference algorithm: greens counted and consumed
positionwise, then each unconsumed guess position (left to right) claims
the lowest-index unconsumed secret position holding the same letter. -/
theorem calculate_hurdle_feedback_matches_spec (guess secret : List Char)
    (hlen : guess.length = secret.length)
    (hg : ∀ c ∈ guess, pyLower c = c) (hs : ∀ c ∈ secret, pyLower c = c) :
    calculate_hurdle_feedback guess secret = spec_feedback guess secret := by
  rw [calculate_hurdle_feedback_eq, map_pyLower_eq_self hg, map_pyLower_eq_self hs]
  rw [hlen, Nat.min_self, Nat.sub_self]
  simp only [List.replicate_zero, List.append_nil]
  rw [availLetters_eqMask_fst guess secret hlen,
    availLetters_eqMask_snd guess secret hlen]
  rfl

/-- Witness for C1 at a concrete input (the test suite's `apple`/`plant`). -/
theorem calculate_hurdle_feedback_matches_spec_witness :
    ("apple".data.length = "plant".data.length
      ∧ calculate_hurdle_feedback "apple".data "plant".data
          = spec_feedback "apple".data "plant".data)
      ∧ calculate_hurdle_feedback "apple".data "plant".data = (0, 3) :=
  ⟨⟨by decide,
    calculate_hurdle_feedback_matches_spec "apple".data "plant".data
      (by decide) (by decide) (by decide)⟩, by decide⟩

/-! ## Bounds on the feedback counts (claims C6, C10) -/

theorem specGreens_le_min (guess secret : List Char) :
    specGreens guess secret ≤ min guess.length secret.length := by
  calc specGreens guess secret ≤ (guess.zip secret).length :=
        List.length_filter_le _ _
    _ = min guess.length secret.length := List.length_zip guess secret

theorem specYellows_le_left :
    ∀ (gs pool : List Char), specYellows gs pool ≤ gs.length := by
  intro gs
  induction gs with
  | nil => intro pool; simp [specYellows]
  | cons g gs ih =>
    intro pool
    by_cases hm : g ∈ pool
    · simp only [specYellows, if_pos hm, List.length_cons]
      exact Nat.add_le_add_right (ih _) 1
    · simp only [specYellows, if_neg hm, List.length_cons]
      exact Nat.le_succ_of_le (ih _)

theorem specYellows_le_right :
    ∀ (gs pool : List Char), specYellows gs pool ≤ pool.length := by
  intro gs
  induction gs with
  | nil => intro pool; simp [specYellows]
  | cons g gs ih =>
    intro pool
    by_cases hm : g ∈ pool
    · have h1 : (pool.erase g).length = pool.length - 1 :=
        List.length_erase_of_mem hm
      have h2 : 1 ≤ pool.length := List.length_pos.mpr (by rintro rfl; simp at hm)
      have h3 := ih (pool.erase g)
      simp only [specYellows, if_pos hm]
      omega
    · simp only [specYellows, if_neg hm]
      exact ih pool

theorem availLetters_replicate_false :
    ∀ l : List Char, availLetters l (List.replicate l.length false) = l := by
  intro l
  induction l with
  | nil => rfl
  | cons c cs ih => simpa [availLetters, List.replicate_succ] using ih

theorem availLetters_pad_fst_length :
    ∀ guess secret : List Char,
      (availLetters guess (eqMask guess secret
          ++ List.replicate (guess.length - min guess.length secret.length) false)).length
        = guess.length - specGreens guess secret := by
  intro guess
  induction guess with
  | nil => intro secret; simp [availLetters, eqMask, specGreens]
  | cons a as ih =>
    intro secret
    cases secret with
    | nil =>
      simp only [eqMask, List.zipWith_nil_right, List.nil_append, List.length_nil,
        Nat.min_zero, Nat.sub_zero, List.length_cons, List.replicate_succ]
      have : availLetters (a :: as) (false :: List.replicate as.length false)
          = a :: as := by
        simpa [availLetters] using availLetters_replicate_false as
      rw [this]
      simp [specGreens]
    | cons b bs =>
      have hmask : eqMask (a :: as) (b :: bs)
          = decide (a = b) :: eqMask as bs := by simp [eqMask]
      have hpad : (a :: as).length - min (a :: as).length (b :: bs).length
          = as.length - min as.length bs.length := by
        simp [Nat.succ_min_succ]
      rw [hmask, hpad]
      have hgle := specGreens_le_min as bs
      have hminle := Nat.min_le_left as.length bs.length
      by_cases hab : a = b
      · have hgreens : specGreens (a :: as) (b :: bs) = specGreens as bs + 1 := by
          simp [specGreens, List.zip_cons_cons, List.filter_cons, hab]
        have hdec : decide (a = b) = true := by simp [hab]
        rw [hgreens, hdec]
        simp only [List.cons_append, availLetters, if_true, List.append_eq,
          List.length_cons]
        rw [ih bs]
        omega
      · have hgreens : specGreens (a :: as) (b :: bs) = specGreens as bs := by
          simp [specGreens, List.zip_cons_cons, List.filter_cons, hab]
        have hdec : decide (a = b) = false := by simp [hab]
        rw [hgreens, hdec]
        simp only [List.cons_append, availLetters, Bool.false_eq_true, if_false,
          List.length_cons, List.append_eq]
        rw [ih bs]
        omega

theorem availLetters_pad_snd_length :
    ∀ guess secret : List Char,
      (availLetters secret (eqMask guess secret
          ++ List.replicate (secret.length - min guess.length secret.length) false)).length
        = secret.length - specGreens guess secret := by
  intro guess
  induction guess with
  | nil =>
    intro secret
    simp only [eqMask, List.zipWith_nil_left, List.nil_append, List.length_nil,
      Nat.zero_min, Nat.sub_zero]
    rw [availLetters_replicate_false]
    simp [specGreens]
  | cons a as ih =>
    intro secret
    cases secret with
    | nil => simp [availLetters, eqMask, specGreens]
    | cons b bs =>
      have hmask : eqMask (a :: as) (b :: bs)
          = decide (a = b) :: eqMask as bs := by simp [eqMask]
      have hpad : (b :: bs).length - min (a :: as).length (b :: bs).length
          = bs.length - min as.length bs.length := by
        simp [Nat.succ_min_succ]
      rw [hmask, hpad]
      have hgle := specGreens_le_min as bs
      have hminle := Nat.min_le_right as.length bs.length
      by_cases hab : a = b
      · have hgreens : specGreens (a :: as) (b :: bs) = specGreens as bs + 1 := by
          simp [specGreens, List.zip_cons_cons, List.filter_cons, hab]
        have hdec : decide (a = b) = true := by simp [hab]
        rw [hgreens, hdec]
        simp only [List.cons_append, availLetters, if_true, List.append_eq,
          List.length_cons]
        rw [ih bs]
        omega
      · have hgreens : specGreens (a :: as) (b :: bs) = specGreens as bs := by
          simp [specGreens, List.zip_cons_cons, List.filter_cons, hab]
        have hdec : decide (a = b) = false := by simp [hab]
        rw [hgreens, hdec]
        simp only [List.cons_append, availLetters, Bool.false_eq_true, if_false,
          List.length_cons, List.append_eq]
        rw [ih bs]
        omega

/-- Core bound: greens + yellows never exceeds the shorter input length. -/
theorem feedback_sum_le_min (guess secret : List Char) :
    (calculate_hurdle_feedback guess secret).1
        + (calculate_hurdle_feedback guess secret).2
      ≤ min guess.length secret.length := by
  rw [calculate_hurdle_feedback_eq]
  have hg := specGreens_le_min (guess.map pyLower) (secret.map pyLower)
  simp only [List.length_map] at hg
  have hA := availLetters_pad_fst_length (guess.map pyLower) (secret.map pyLower)
  simp only [List.length_map] at hA
  have hB := availLetters_pad_snd_length (guess.map pyLower) (secret.map pyLower)
  simp only [List.length_map] at hB
  have hyA := specYellows_le_left
    (availLetters (guess.map pyLower)
      (eqMask (guess.map pyLower) (secret.map pyLower)
        ++ List.replicate (guess.length - min guess.length secret.length) false))
    (availLetters (secret.map pyLower)
      (eqMask (guess.map pyLower) (secret.map pyLower)
        ++ List.replicate (secret.length - min guess.length secret.length) false))
  have hyB := specYellows_le_right
    (availLetters (guess.map pyLower)
      (eqMask (guess.map pyLower) (secret.map pyLower)
        ++ List.replicate (guess.length - min guess.length secret.length) false))
    (availLetters (secret.map pyLower)
      (eqMask (guess.map pyLower) (secret.map pyLower)
        ++ List.replicate (secret.length - min guess.length secret.length) false))
  rw [hA] at hyA
  rw [hB] at hyB
  simp only
  omega

/-- C10.  `calculate_hurdle_feedback` is total for arbitrary, possibly
unequal-length, inputs (the Lean embedding is a total function mirroring
the source's `min`-bounded green loop, whose index accesses therefore all
stay in range), and the returned counts satisfy
`greens ≤ min` and `greens + yellows ≤ min` of the two lengths. -/
theorem calculate_hurdle_feedback_total_safe (guess secret : List Char) :
    (calculate_hurdle_feedback guess secret).1
        ≤ min guess.length secret.length
      ∧ (calculate_hurdle_feedback guess secret).1
          + (calculate_hurdle_feedback guess secret).2
          ≤ min guess.length secret.length := by
  refine ⟨?_, feedback_sum_le_min guess secret⟩
  rw [calculate_hurdle_feedback_eq]
  have hg := specGreens_le_min (guess.map pyLower) (secret.map pyLower)
  simp only [List.length_map] at hg
  simpa using hg

/-! ## Anagram case (claim C6) -/

theorem filter_eq_map_fst_eq_snd :
    ∀ l : List (Char × Char),
      ((l.filter fun p => decide (p.1 = p.2)).map Prod.fst)
        = ((l.filter fun p => decide (p.1 = p.2)).map Prod.snd) := by
  intro l
  induction l with
  | nil => rfl
  | cons p ps ih =>
    by_cases hp : p.1 = p.2
    · simp only [List.filter_cons, decide_eq_true_eq, hp]
      simp only [if_pos trivial, List.map_cons, hp]
      rw [ih]
    · simp [List.filter_cons, hp, ih]

theorem specUnmatched_perm (guess secret : List Char)
    (hlen : guess.length = secret.length) (hperm : List.Perm guess secret) :
    List.Perm (specUnmatchedGuess guess secret) (specUnmatchedSecret guess secret) := by
  have hfst : List.Perm
      (((guess.zip secret).filter fun p => decide (p.1 = p.2)).map Prod.fst
        ++ specUnmatchedGuess guess secret) guess := by
    have h1 := (List.filter_append_perm
      (fun p : Char × Char => decide (p.1 = p.2)) (guess.zip secret)).map Prod.fst
    rw [List.map_append] at h1
    have h2 : (guess.zip secret).map Prod.fst = guess :=
      List.map_fst_zip guess secret (by omega)
    rw [h2] at h1
    exact h1
  have hsnd : List.Perm
      (((guess.zip secret).filter fun p => decide (p.1 = p.2)).map Prod.snd
        ++ specUnmatchedSecret guess secret) secret := by
    have h1 := (List.filter_append_perm
      (fun p : Char × Char => decide (p.1 = p.2)) (guess.zip secret)).map Prod.snd
    rw [List.map_append] at h1
    have h2 : (guess.zip secret).map Prod.snd = secret :=
      List.map_snd_zip guess secret (by omega)
    rw [h2] at h1
    exact h1
  rw [filter_eq_map_fst_eq_snd] at hfst
  have hcombined : List.Perm
      (((guess.zip secret).filter fun p => decide (p.1 = p.2)).map Prod.snd
        ++ specUnmatchedGuess guess secret)
      (((guess.zip secret).filter fun p => decide (p.1 = p.2)).map Prod.snd
        ++ specUnmatchedSecret guess secret) :=
    (hfst.trans hperm).trans hsnd.symm
  exact (List.perm_append_left_iff _).mp hcombined

theorem specYellows_of_perm :
    ∀ (gs pool : List Char), List.Perm gs pool → specYellows gs pool = gs.length := by
  intro gs
  induction gs with
  | nil => intro pool h; simp [specYellows]
  | cons g gs ih =>
    intro pool h
    obtain ⟨hm, hp⟩ := List.cons_perm_iff_perm_erase.mp h
    simp only [specYellows, if_pos hm, List.length_cons]
    rw [ih (pool.erase g) hp]

theorem specUnmatchedGuess_length (guess secret : List Char) :
    (specUnmatchedGuess guess secret).length
      = (guess.zip secret).length - specGreens guess secret := by
  have h := (List.filter_append_perm
    (fun p : Char × Char => decide (p.1 = p.2)) (guess.zip secret)).length_eq
  rw [List.length_append] at h
  simp only [specUnmatchedGuess, List.length_map, specGreens]
  omega

/-- C6.  For equal-length inputs, `greens + yellows ≤ L`, and when guess
and secret are anagrams of each other (so a fortiori when additionally no
fixed points beyond the greens exist), `greens + yellows = L`. -/
theorem feedback_counts_bounded (guess secret : List Char)
    (hlen : guess.length = secret.length) :
    (calculate_hurdle_feedback guess secret).1
          + (calculate_hurdle_feedback guess secret).2 ≤ guess.length
      ∧ (List.Perm guess secret →
          (calculate_hurdle_feedback guess secret).1
            + (calculate_hurdle_feedback guess secret).2 = guess.length) := by
  constructor
  · have h := feedback_sum_le_min guess secret
    omega
  · intro hperm
    have hlenm : (guess.map pyLower).length = (secret.map pyLower).length := by
      simpa using hlen
    have hmin : min guess.length secret.length = guess.length := by omega
    rw [calculate_hurdle_feedback_eq, hmin]
    rw [Nat.sub_self, hlen.symm, Nat.sub_self]
    simp only [List.replicate_zero, List.append_nil]
    rw [availLetters_eqMask_fst _ _ hlenm, availLetters_eqMask_snd _ _ hlenm]
    have hpermlow : List.Perm (guess.map pyLower) (secret.map pyLower) :=
      hperm.map pyLower
    have hup := specUnmatched_perm (guess.map pyLower) (secret.map pyLower)
      hlenm hpermlow
    rw [specYellows_of_perm _ _ hup, specUnmatchedGuess_length]
    have hzl : ((guess.map pyLower).zip (secret.map pyLower)).length
        = guess.length := by
      rw [List.length_zip]
      simp only [List.length_map]
      omega
    rw [hzl]
    have hgle := specGreens_le_min (guess.map pyLower) (secret.map pyLower)
    simp only [List.length_map] at hgle
    omega

/-- Witness for C6 at a concrete anagram pair (`tnalp`/`plant`). -/
theorem feedback_counts_bounded_witness :
    ("tnalp".data.length = "plant".data.length
        ∧ (calculate_hurdle_feedback "tnalp".data "plant".data).1
            + (calculate_hurdle_feedback "tnalp".data "plant".data).2
            ≤ "tnalp".data.length)
      ∧ (calculate_hurdle_feedback "tnalp".data "plant".data).1
          + (calculate_hurdle_feedback "tnalp".data "plant".data).2
          = "tnalp".data.length :=
  ⟨⟨by decide, (feedback_counts_bounded "tnalp".data "plant".data (by decide)).1⟩,
    (feedback_counts_bounded "tnalp".data "plant".data (by decide)).2 (by decide)⟩

/-! ## Substring-containment helpers -/

theorem listStartsWith_append_self :
    ∀ (n t : List Char), listStartsWith n (n ++ t) = true := by
  intro n
  induction n with
  | nil => intro t; rfl
  | cons c cs ih => intro t; simp [listStartsWith, ih t]

theorem containsSub_sandwich (needle : List Char) :
    ∀ (s t : List Char), containsSub needle (s ++ (needle ++ t)) = true := by
  intro s
  induction s with
  | nil =>
    intro t
    cases needle with
    | nil =>
      cases t with
      | nil => rfl
      | cons h hs => simp [containsSub, listStartsWith]
    | cons n ns =>
      show containsSub (n :: ns) (n :: (ns ++ t)) = true
      simp only [containsSub, Bool.or_eq_true]
      exact Or.inl (by simpa using listStartsWith_append_self (n :: ns) t)
  | cons c s ih =>
    intro t
    simp [containsSub, ih t]

theorem containsSub_of_eq_append (needle hay s t : List Char)
    (h : hay = s ++ (needle ++ t)) : containsSub needle hay = true := by
  rw [h]; exact containsSub_sandwich needle s t

/-! ## Claims about `step` (C2, C3, C5) -/

/-- C2.  A well-formed, correct-length guess terminates the episode with
outcome `Won` and reward 1 whenever it matches the secret
case-insensitively (at any attempt number, so in particular also on the
very last one — the win check precedes the exhaustion check); otherwise,
when the appended record makes the history length reach `M`, the episode
terminates with outcome `Lost`, reward 0, and a reason containing the
uppercase secret. -/
theorem step_win_before_exhaustion (st : GameState) (action tok : List Char)
    (h1 : findBracketToken action = some tok)
    (h2 : (tok.map pyLower).length = st.word_length) :
    ((tok.map pyLower).map pyLower = st.secret_word.map pyLower →
        (step st action).2.is_done = true
          ∧ (step st action).1.outcome = some Outcome.won
          ∧ (step st action).2.reward = 1
          ∧ (step st action).1.guess_history
              = st.guess_history
                ++ [(tok.map pyLower,
                     calculate_hurdle_feedback (tok.map pyLower) st.secret_word)])
      ∧ ((tok.map pyLower).map pyLower ≠ st.secret_word.map pyLower →
          st.guess_history.length + 1 = st.num_guesses →
            (step st action).2.is_done = true
              ∧ (step st action).1.outcome = some Outcome.lost
              ∧ (step st action).2.reward = 0
              ∧ containsSub (st.secret_word.map pyUpper)
                  (step st action).2.reason = true) := by
  constructor
  · intro hwin
    simp only [step, h1]
    rw [if_neg (not_not_intro h2), if_pos hwin]
    exact ⟨rfl, rfl, rfl, rfl⟩
  · intro hne hM
    simp only [step, h1]
    rw [if_neg (not_not_intro h2), if_neg hne,
      if_pos (show st.num_guesses ≤
        (st.guess_history
          ++ [(tok.map pyLower,
               calculate_hurdle_feedback (tok.map pyLower) st.secret_word)]).length by
        simp [List.length_append]; omega)]
    refine ⟨rfl, rfl, rfl, ?_⟩
    exact containsSub_of_eq_append _ _ "Game over! The word was \x27".data
      "\x27.".data rfl

/-- Witness for C2: a win on the last attempt, and a loss on the last
attempt, on concrete states. -/
theorem step_win_before_exhaustion_witness :
    ((step demoState7 "I guess <guess>[PLANT]</guess>".data).2.is_done = true
      ∧ (step demoState7 "I guess <guess>[PLANT]</guess>".data).1.outcome
          = some Outcome.won
      ∧ (step demoState7 "I guess <guess>[PLANT]</guess>".data).2.reward = 1
      ∧ (step demoState7 "I guess <guess>[PLANT]</guess>".data).1.guess_history
          = demoState7.guess_history
            ++ [("PLANT".data.map pyLower,
                 calculate_hurdle_feedback ("PLANT".data.map pyLower)
                   demoState7.secret_word)])
    ∧ ((step demoState7 "[crane]".data).2.is_done = true
      ∧ (step demoState7 "[crane]".data).1.outcome = some Outcome.lost
      ∧ (step demoState7 "[crane]".data).2.reward = 0
      ∧ containsSub (demoState7.secret_word.map pyUpper)
          (step demoState7 "[crane]".data).2.reason = true) :=
  ⟨(step_win_before_exhaustion demoState7 "I guess <guess>[PLANT]</guess>".data
      "PLANT".data (by decide) (by decide)).1 (by decide),
   (step_win_before_exhaustion demoState7 "[crane]".data "crane".data
      (by decide) (by decide)).2 (by decide) (by decide)⟩

/-- C3.  A raw action without a bracketed word token, or whose extracted
token has the wrong length, appends nothing to the history, changes the
state only by consuming one unit of `error_allowance`, never terminates
the episode, and reports the failure via the wrong-format reason
respectively the length-specific reason. -/
theorem step_invalid_keeps_state (st : GameState) (action : List Char) :
    (findBracketToken action = none →
        (step st action).1 = { st with error_allowance := st.error_allowance - 1 }
          ∧ (step st action).1.guess_history = st.guess_history
          ∧ (step st action).2.is_done = false
          ∧ (step st action).2.reason = wrongFormatReason
          ∧ containsSub "wrong format".data (step st action).2.reason = true)
      ∧ (∀ tok, findBracketToken action = some tok →
          (tok.map pyLower).length ≠ st.word_length →
            (step st action).1
                = { st with error_allowance := st.error_allowance - 1 }
              ∧ (step st action).1.guess_history = st.guess_history
              ∧ (step st action).2.is_done = false
              ∧ (step st action).2.reason
                  = lengthViolationReason st.word_length) := by
  constructor
  · intro hnone
    refine ⟨?_, ?_, ?_, ?_, ?_⟩ <;> simp only [step, hnone]
    decide
  · intro tok hsome hlen
    simp only [step, hsome]
    rw [if_pos hlen]
    exact ⟨rfl, rfl, rfl, rfl⟩

/-- Witness for C3: an unbracketed submission and an overlong bracketed
submission on a concrete state. -/
theorem step_invalid_keeps_state_witness :
    ((step demoState0 "plant".data).1
          = { demoState0 with error_allowance := demoState0.error_allowance - 1 }
        ∧ (step demoState0 "plant".data).1.guess_history
            = demoState0.guess_history
        ∧ (step demoState0 "plant".data).2.is_done = false
        ∧ (step demoState0 "plant".data).2.reason = wrongFormatReason
        ∧ containsSub "wrong format".data (step demoState0 "plant".data).2.reason
            = true)
      ∧ ((step demoState0 "[plants]".data).1
            = { demoState0 with error_allowance := demoState0.error_allowance - 1 }
          ∧ (step demoState0 "[plants]".data).1.guess_history
              = demoState0.guess_history
          ∧ (step demoState0 "[plants]".data).2.is_done = false
          ∧ (step demoState0 "[plants]".data).2.reason
              = lengthViolationReason demoState0.word_length) :=
  ⟨(step_invalid_keeps_state demoState0 "plant".data).1 (by decide),
   (step_invalid_keeps_state demoState0 "[plants]".data).2 "plants".data
     (by decide) (by decide)⟩

/-- C5.  A valid, correct-length, non-winning guess that leaves the
history strictly below `M` yields a non-terminal turn whose reward is
exactly `0.2·greens + 0.1·yellows` (hence within `[0, 0.3·L]`), and whose
message contains the submitted word in uppercase inside square brackets
and the literal substring `Feedback: greens: <g>, yellows: <y>` with the
computed counts. -/
theorem step_continue_feedback (st : GameState) (action tok : List Char)
    (h1 : findBracketToken action = some tok)
    (h2 : (tok.map pyLower).length = st.word_length)
    (h3 : (tok.map pyLower).map pyLower ≠ st.secret_word.map pyLower)
    (h4 : st.guess_history.length + 1 < st.num_guesses)
    (h5 : st.secret_word.length = st.word_length) :
    (step st action).2.is_done = false
      ∧ (step st action).2.reward
          = (1/5 : ℚ)
              * (calculate_hurdle_feedback (tok.map pyLower) st.secret_word).1
            + (1/10 : ℚ)
              * (calculate_hurdle_feedback (tok.map pyLower) st.secret_word).2
      ∧ 0 ≤ (step st action).2.reward
      ∧ (step st action).2.reward ≤ (3/10 : ℚ) * st.word_length
      ∧ containsSub ('[' :: ((tok.map pyLower).map pyUpper ++ [']']))
          (step st action).2.message = true
      ∧ containsSub
          ("Feedback: greens: ".data
            ++ (natDigits (calculate_hurdle_feedback (tok.map pyLower)
                  st.secret_word).1
              ++ (", yellows: ".data
                ++ natDigits (calculate_hurdle_feedback (tok.map pyLower)
                      st.secret_word).2)))
          (step st action).2.message = true := by
  have hnotfull : ¬ st.num_guesses ≤
      (st.guess_history
        ++ [(tok.map pyLower,
             calculate_hurdle_feedback (tok.map pyLower) st.secret_word)]).length := by
    simp only [List.length_append, List.length_cons, List.length_nil]
    omega
  have hstep : step st action
      = ({ st with guess_history :=
            st.guess_history
              ++ [(tok.map pyLower,
                   calculate_hurdle_feedback (tok.map pyLower) st.secret_word)] },
         { is_done := false,
           reward := (1/5 : ℚ)
               * (calculate_hurdle_feedback (tok.map pyLower) st.secret_word).1
             + (1/10 : ℚ)
               * (calculate_hurdle_feedback (tok.map pyLower) st.secret_word).2,
           reason := [],
           message := feedbackLine (tok.map pyLower)
             (calculate_hurdle_feedback (tok.map pyLower) st.secret_word).1
             (calculate_hurdle_feedback (tok.map pyLower) st.secret_word).2 }) := by
    simp only [step, h1]
    rw [if_neg (not_not_intro h2), if_neg h3, if_neg hnotfull]
  rw [hstep]
  have hsum : (calculate_hurdle_feedback (tok.map pyLower) st.secret_word).1
      + (calculate_hurdle_feedback (tok.map pyLower) st.secret_word).2
      ≤ st.word_length := by
    have h := feedback_sum_le_min (tok.map pyLower) st.secret_word
    rw [h2, h5] at h
    simpa using h
  refine ⟨rfl, rfl, ?_, ?_, ?_, ?_⟩
  · positivity
  · have hq : ((calculate_hurdle_feedback (tok.map pyLower) st.secret_word).1 : ℚ)
        + ((calculate_hurdle_feedback (tok.map pyLower) st.secret_word).2 : ℚ)
        ≤ (st.word_length : ℚ) := by exact_mod_cast hsum
    have hg0 : (0 : ℚ)
        ≤ ((calculate_hurdle_feedback (tok.map pyLower) st.secret_word).1 : ℚ) := by
      positivity
    have hy0 : (0 : ℚ)
        ≤ ((calculate_hurdle_feedback (tok.map pyLower) st.secret_word).2 : ℚ) := by
      positivity
    linarith
  · refine containsSub_of_eq_append _ _ "You submitted ".data
      (".\nFeedback: greens: ".data
        ++ natDigits (calculate_hurdle_feedback (tok.map pyLower) st.secret_word).1
        ++ ", yellows: ".data
        ++ natDigits (calculate_hurdle_feedback (tok.map pyLower) st.secret_word).2)
      ?_
    have d1 : "You submitted [".data = "You submitted ".data ++ ['['] := by decide
    have d2 : "].\nFeedback: greens: ".data
        = [']'] ++ ".\nFeedback: greens: ".data := by decide
    rw [feedbackLine, d1, d2]
    simp [List.append_assoc]
  · refine containsSub_of_eq_append _ _
      ("You submitted [".data ++ (tok.map pyLower).map pyUpper ++ "].\n".data)
      [] ?_
    have d3 : "].\nFeedback: greens: ".data
        = "].\n".data ++ "Feedback: greens: ".data := by decide
    rw [feedbackLine, d3]
    simp [List.append_assoc]

/-- Witness for C5: the first guess `crane` against `plant`. -/
theorem step_continue_feedback_witness :
    (step demoState0 "[crane]".data).2.is_done = false
      ∧ (step demoState0 "[crane]".data).2.reward
          = (1/5 : ℚ)
              * (calculate_hurdle_feedback ("crane".data.map pyLower)
                  demoState0.secret_word).1
            + (1/10 : ℚ)
              * (calculate_hurdle_feedback ("crane".data.map pyLower)
                  demoState0.secret_word).2
      ∧ 0 ≤ (step demoState0 "[crane]".data).2.reward
      ∧ (step demoState0 "[crane]".data).2.reward
          ≤ (3/10 : ℚ) * demoState0.word_length
      ∧ containsSub ('[' :: (("crane".data.map pyLower).map pyUpper ++ [']']))
          (step demoState0 "[crane]".data).2.message = true
      ∧ containsSub
          ("Feedback: greens: ".data
            ++ (natDigits (calculate_hurdle_feedback ("crane".data.map pyLower)
                  demoState0.secret_word).1
              ++ (", yellows: ".data
                ++ natDigits (calculate_hurdle_feedback ("crane".data.map pyLower)
                      demoState0.secret_word).2)))
          (step demoState0 "[crane]".data).2.message = true :=
  step_continue_feedback demoState0 "[crane]".data "crane".data
    (by decide) (by decide) (by decide) (by decide) (by decide)

/-! ## Episode invariants (claim C4) -/

theorem step_num_guesses (st : GameState) (a : List Char) :
    (step st a).1.num_guesses = st.num_guesses := by
  rcases hfb : findBracketToken a with _ | tok
  · simp only [step, hfb]
  · simp only [step, hfb]
    by_cases hlen : (tok.map pyLower).length ≠ st.word_length
    · rw [if_pos hlen]
    · rw [if_neg hlen]
      by_cases hwin : (tok.map pyLower).map pyLower = st.secret_word.map pyLower
      · rw [if_pos hwin]
      · rw [if_neg hwin]
        by_cases hfull : st.num_guesses
            ≤ (st.guess_history
                ++ [(tok.map pyLower,
                     calculate_hurdle_feedback (tok.map pyLower)
                       st.secret_word)]).length
        · rw [if_pos hfull]
        · rw [if_neg hfull]

theorem step_preserves_invariant (st : GameState) (a : List Char)
    (_hnow : st.outcome = none)
    (hlt : st.guess_history.length < st.num_guesses) :
    ((step st a).1.outcome = none →
        (step st a).1.guess_history.length < (step st a).1.num_guesses)
      ∧ (step st a).1.guess_history.length ≤ (step st a).1.num_guesses := by
  rcases hfb : findBracketToken a with _ | tok
  · simp only [step, hfb]
    exact ⟨fun _ => hlt, Nat.le_of_lt hlt⟩
  · simp only [step, hfb]
    by_cases hlen : (tok.map pyLower).length ≠ st.word_length
    · rw [if_pos hlen]
      exact ⟨fun _ => hlt, Nat.le_of_lt hlt⟩
    · rw [if_neg hlen]
      by_cases hwin : (tok.map pyLower).map pyLower = st.secret_word.map pyLower
      · rw [if_pos hwin]
        constructor
        · intro h; exact absurd h (by simp)
        · simp only [List.length_append, List.length_cons, List.length_nil]
          omega
      · rw [if_neg hwin]
        by_cases hfull : st.num_guesses
            ≤ (st.guess_history
                ++ [(tok.map pyLower,
                     calculate_hurdle_feedback (tok.map pyLower)
                       st.secret_word)]).length
        · rw [if_pos hfull]
          constructor
          · intro h; exact absurd h (by simp)
          · simp only [List.length_append, List.length_cons, List.length_nil]
            omega
        · rw [if_neg hfull]
          simp only [List.length_append, List.length_cons, List.length_nil] at hfull ⊢
          exact ⟨fun _ => by omega, by omega⟩

theorem runEpisode_terminal_fixed (s : GameState) (acts : List (List Char))
    (h : s.outcome ≠ none) : runEpisode s acts = s := by
  cases acts with
  | nil => rfl
  | cons a as => simp only [runEpisode, if_neg h]

theorem runEpisode_invariant :
    ∀ (acts : List (List Char)) (s : GameState),
      (s.outcome = none → s.guess_history.length < s.num_guesses) →
      s.guess_history.length ≤ s.num_guesses →
      (runEpisode s acts).guess_history.length
        ≤ (runEpisode s acts).num_guesses := by
  intro acts
  induction acts with
  | nil => intro s _ h1; exact h1
  | cons a as ih =>
    intro s h0 h1
    by_cases hs : s.outcome = none
    · simp only [runEpisode, if_pos hs]
      obtain ⟨k0, k1⟩ := step_preserves_invariant s a hs (h0 hs)
      exact ih _ k0 k1
    · simp only [runEpisode, if_neg hs]
      exact h1

theorem runEpisode_num_guesses :
    ∀ (acts : List (List Char)) (s : GameState),
      (runEpisode s acts).num_guesses = s.num_guesses := by
  intro acts
  induction acts with
  | nil => intro s; rfl
  | cons a as ih =>
    intro s
    by_cases hs : s.outcome = none
    · simp only [runEpisode, if_pos hs]
      rw [ih, step_num_guesses]
    · simp only [runEpisode, if_neg hs]

/-- C4.  From reset, along any action sequence, the history never exceeds
`M` (for any positive attempt budget `M`); and once a terminal outcome is
set, further submissions change nothing — no record is appended and no
further turn is produced (the orchestrator/textarena lifecycle, external
to this repository, is modelled from spec §5 by `runEpisode`). -/
theorem episode_invariants (secret : List Char) (L M : Nat)
    (acts acts2 : List (List Char)) (hM : 1 ≤ M) :
    (runEpisode (resetState secret L M) acts).guess_history.length ≤ M
      ∧ ((runEpisode (resetState secret L M) acts).outcome ≠ none →
          runEpisode (runEpisode (resetState secret L M) acts) acts2
            = runEpisode (resetState secret L M) acts) := by
  constructor
  · have h := runEpisode_invariant acts (resetState secret L M)
      (fun _ => by simpa [resetState] using hM) (by simp [resetState])
    rwa [runEpisode_num_guesses] at h
  · intro h
    exact runEpisode_terminal_fixed _ acts2 h

/-- Witness for C4: a one-guess win, after which a further submission is
inert. -/
theorem episode_invariants_witness :
    (runEpisode (resetState "plant".data 5 8)
        ["[plant]".data]).guess_history.length ≤ 8
      ∧ runEpisode (runEpisode (resetState "plant".data 5 8) ["[plant]".data])
          ["[crane]".data]
        = runEpisode (resetState "plant".data 5 8) ["[plant]".data] :=
  ⟨(episode_invariants "plant".data 5 8 ["[plant]".data] ["[crane]".data]
      (by decide)).1,
   (episode_invariants "plant".data 5 8 ["[plant]".data] ["[crane]".data]
      (by decide)).2 (by decide)⟩

/-! ## Reward-function claims (C7, C8) -/

theorem check_answer_eq_zero_of_ne {g answer : List Char} (h : g ≠ answer) :
    check_answer_reward_func (some ('[' :: (g ++ [']']))) answer = 0 := by
  have hne : ('[' :: (g ++ [']'])) ≠ ('[' :: (answer ++ [']'])) := by
    intro habs
    apply h
    have h2 : g ++ [']'] = answer ++ [']'] := by injection habs
    exact List.append_cancel_right h2
  simp [check_answer_reward_func, hne]

/-- C7.  The correctness reward is 1 exactly when the extracted final
guess (which the parser collaborator returns in its literal bracketed
form) equals the bracketed secret — i.e. when the final submitted guess
equals the secret — and 0 otherwise, in particular also when nothing
could be parsed. -/
theorem check_answer_reward_spec (answer g : List Char) :
    check_answer_reward_func (some ('[' :: (g ++ [']']))) answer
        = (if g = answer then 1 else 0)
      ∧ check_answer_reward_func none answer = 0 := by
  refine ⟨?_, rfl⟩
  by_cases hg : g = answer
  · subst hg
    simp [check_answer_reward_func]
  · rw [if_neg hg]
    exact check_answer_eq_zero_of_ne hg

/-- C8.  The efficiency reward equals the correctness reward divided by
(number of guessing turns + 1), where a leading welcome assistant turn is
excluded from the count; it is 0 whenever the final guess is not correct;
and on the reference transcript (one welcome turn, a win on the second
guessing turn) it equals 1/3 within 1e-3. -/
theorem count_turns_reward_spec (parsed : Option (List Char))
    (completion : List Message) (answer g : List Char) (w : Message)
    (rest : List Message)
    (hw : completion.filter (fun m => decide (m.role = Role.assistant)) = w :: rest)
    (hwelcome : containsSub welcomeMarker w.content = true)
    (hg : parsed = some ('[' :: (g ++ [']']))) :
    count_turns_reward_func parsed completion answer
        = check_answer_reward_func parsed answer / ((rest.length : ℚ) + 1)
      ∧ (g ≠ answer → count_turns_reward_func parsed completion answer = 0)
      ∧ |count_turns_reward_func (some ('[' :: ("plant".data ++ [']'])))
            demoCompletion8 "plant".data - 1/3| ≤ 1/1000 := by
  have heq : count_turns_reward_func parsed completion answer
      = check_answer_reward_func parsed answer / ((rest.length : ℚ) + 1) := by
    unfold count_turns_reward_func
    rw [hw]
    simp [hwelcome]
  refine ⟨heq, fun hne => ?_, ?_⟩
  · rw [heq, hg, check_answer_eq_zero_of_ne hne, zero_div]
  · have hfe : demoCompletion8.filter (fun m => decide (m.role = Role.assistant))
        = ⟨Role.assistant, "Welcome to Hurdle Wordle! You need to guess...".data⟩ ::
          [⟨Role.assistant, "<guess>[crane]</guess>".data⟩,
           ⟨Role.assistant, "<guess>[plant]</guess>".data⟩] := by decide
    have h8 : count_turns_reward_func (some ('[' :: ("plant".data ++ [']'])))
        demoCompletion8 "plant".data
        = check_answer_reward_func (some ('[' :: ("plant".data ++ [']'])))
            "plant".data / ((2 : ℚ) + 1) := by
      unfold count_turns_reward_func
      rw [hfe]
      simp [show containsSub welcomeMarker
        "Welcome to Hurdle Wordle! You need to guess...".data = true by decide]
    have hcheck : check_answer_reward_func (some ('[' :: ("plant".data ++ [']'])))
        "plant".data = 1 := by decide
    rw [h8, hcheck]
    norm_num

/-- Witness for C8: the reference transcript with a correct and an
incorrect final answer. -/
theorem count_turns_reward_spec_witness :
    count_turns_reward_func (some ('[' :: ("plant".data ++ [']'])))
          demoCompletion8 "plant".data
        = check_answer_reward_func (some ('[' :: ("plant".data ++ [']'])))
            "plant".data / ((2 : ℚ) + 1)
      ∧ count_turns_reward_func (some ('[' :: ("plant".data ++ [']'])))
          demoCompletion8 "crane".data = 0 :=
  ⟨(count_turns_reward_spec (some ('[' :: ("plant".data ++ [']'])))
      demoCompletion8 "plant".data "plant".data
      ⟨Role.assistant, "Welcome to Hurdle Wordle! You need to guess...".data⟩
      [⟨Role.assistant, "<guess>[crane]</guess>".data⟩,
       ⟨Role.assistant, "<guess>[plant]</guess>".data⟩]
      (by decide) (by decide) rfl).1,
   (count_turns_reward_spec (some ('[' :: ("plant".data ++ [']'])))
      demoCompletion8 "crane".data "plant".data
      ⟨Role.assistant, "Welcome to Hurdle Wordle! You need to guess...".data⟩
      [⟨Role.assistant, "<guess>[crane]</guess>".data⟩,
       ⟨Role.assistant, "<guess>[plant]</guess>".data⟩]
      (by decide) (by decide) rfl).2.1 (by decide)⟩

/-! ## Decimal digits round-trip (for claim C9) -/

theorem digitVal_digitChar {d : Nat} (h : d < 10) :
    digitVal (digitChar d) = d := by
  interval_cases d <;> decide

theorem digitChar_isDigit {d : Nat} (h : d < 10) :
    (digitChar d).isDigit = true := by
  interval_cases d <;> decide

theorem parseNat_concat (xs : List Char) (c : Char) :
    parseNat (xs ++ [c]) = parseNat xs * 10 + digitVal c := by
  simp [parseNat, List.foldl_append]

theorem natDigits_ne_nil (n : Nat) : natDigits n ≠ [] := by
  rw [natDigits]
  by_cases h : n < 10
  · simp [h]
  · simp [h]

theorem natDigits_all_digit :
    ∀ n, ∀ c ∈ natDigits n, c.isDigit = true := by
  intro n
  induction n using Nat.strong_induction_on with
  | _ n ih =>
    intro c hc
    rw [natDigits] at hc
    by_cases h : n < 10
    · rw [dif_pos h] at hc
      simp only [List.mem_singleton] at hc
      subst hc
      exact digitChar_isDigit h
    · rw [dif_neg h] at hc
      rcases List.mem_append.mp hc with h1 | h2
      · exact ih (n / 10) (Nat.div_lt_self (by omega) (by omega)) c h1
      · simp only [List.mem_singleton] at h2
        subst h2
        exact digitChar_isDigit (Nat.mod_lt n (by omega))

theorem parseNat_natDigits : ∀ n, parseNat (natDigits n) = n := by
  intro n
  induction n using Nat.strong_induction_on with
  | _ n ih =>
    rw [natDigits]
    by_cases h : n < 10
    · rw [dif_pos h]
      show parseNat [digitChar n] = n
      simp [parseNat, digitVal_digitChar h]
    · rw [dif_neg h, parseNat_concat,
        ih (n / 10) (Nat.div_lt_self (by omega) (by omega)),
        digitVal_digitChar (Nat.mod_lt n (by omega))]
      omega

theorem isDigit_ne_of_not_isDigit {c x : Char} (hc : c.isDigit = true)
    (hx : x.isDigit = false) : c ≠ x := by
  intro h
  rw [h, hx] at hc
  exact Bool.false_ne_true hc

theorem isPySpace_eq_false_of_isDigit {c : Char} (h : c.isDigit = true) :
    isPySpace c = false := by
  by_contra habs
  have htrue : isPySpace c = true := by
    rcases hb : isPySpace c with _ | _
    · exact absurd hb habs
    · rfl
  simp only [isPySpace, Bool.or_eq_true, beq_iff_eq] at htrue
  rcases htrue with ((((h1 | h1) | h1) | h1) | h1) | h1 <;>
    (subst h1; exact absurd h (by decide))

/-! ## String plumbing for the feedback parser (claim C9) -/

theorem dropWhile_append_of_neg (p : Char → Bool) (c : Char) (hc : p c = false) :
    ∀ (a bs : List Char), (a ++ (c :: bs)).dropWhile p = a.dropWhile p ++ (c :: bs) := by
  intro a bs
  induction a with
  | nil => simp [List.dropWhile_cons, hc]
  | cons a0 a' ih =>
    rcases hp : p a0 with _ | _
    · simp [List.dropWhile_cons, hp]
    · simpa [List.dropWhile_cons, hp] using ih

theorem takeWhile_append_all (p : Char → Bool) :
    ∀ (xs ys : List Char), (∀ c ∈ xs, p c = true) →
      (xs ++ ys).takeWhile p = xs ++ ys.takeWhile p := by
  intro xs ys
  induction xs with
  | nil => intro _; rfl
  | cons x xs ih =>
    intro h
    have hx : p x = true := h x (by simp)
    simp only [List.cons_append, List.takeWhile_cons, hx, if_true]
    rw [ih fun c hc => h c (by simp [hc])]

theorem takeWhile_all (p : Char → Bool) :
    ∀ (xs : List Char), (∀ c ∈ xs, p c = true) → xs.takeWhile p = xs := by
  intro xs h
  have := takeWhile_append_all p xs [] h
  simpa using this

/-- Dropping trailing whitespace does nothing when the last character is
not whitespace: formulated via `reverse`. -/
theorem dropWhile_reverse_append_digits (l dy : List Char) (d : Char)
    (ds : List Char) (hrev : dy.reverse = d :: ds) (hd : isPySpace d = false) :
    ((l ++ dy).reverse.dropWhile isPySpace).reverse = l ++ dy := by
  rw [List.reverse_append, hrev]
  simp only [List.cons_append, List.dropWhile_cons, hd, Bool.false_eq_true,
    if_false]
  rw [show d :: (ds ++ l.reverse) = (d :: ds) ++ l.reverse from rfl, ← hrev,
    ← List.reverse_append, List.reverse_reverse]

/-- The reverse of a rendered number starts with a digit. -/
theorem natDigits_reverse_head (n : Nat) :
    ∃ d ds, (natDigits n).reverse = d :: ds ∧ d.isDigit = true := by
  have hne : (natDigits n).reverse ≠ [] := by
    intro habs
    apply natDigits_ne_nil n
    rw [← List.reverse_reverse (natDigits n), habs]
    rfl
  obtain ⟨d, ds, h⟩ := List.exists_cons_of_ne_nil hne
  refine ⟨d, ds, h, ?_⟩
  have hmem : d ∈ (natDigits n).reverse := by rw [h]; simp
  exact natDigits_all_digit n d (List.mem_reverse.mp hmem)

theorem afterLastMarker_eq_none (marker : List Char) :
    ∀ u, containsSub marker u = false → afterLastMarker marker u = none := by
  intro u
  induction u with
  | nil => intro _; rfl
  | cons h t ih =>
    intro hc
    simp only [containsSub, Bool.or_eq_false_iff] at hc
    simp only [afterLastMarker, ih hc.2, hc.1, Bool.false_eq_true, if_false]

theorem afterLastMarker_sandwich (mc : Char) (mrest t : List Char)
    (hB : containsSub (mc :: mrest) (mrest ++ t) = false) :
    ∀ x, afterLastMarker (mc :: mrest) (x ++ ((mc :: mrest) ++ t)) = some t := by
  have hbase : afterLastMarker (mc :: mrest) ((mc :: mrest) ++ t) = some t := by
    show afterLastMarker (mc :: mrest) (mc :: (mrest ++ t)) = some t
    simp only [afterLastMarker, afterLastMarker_eq_none (mc :: mrest) _ hB]
    rw [if_pos (by simpa using listStartsWith_append_self (mc :: mrest) t)]
    show some ((mc :: mrest ++ t).drop (mc :: mrest).length) = some t
    rw [show (mc :: mrest ++ t) = (mc :: mrest) ++ t from rfl, List.drop_left]
  intro x
  induction x with
  | nil => simpa using hbase
  | cons c x' ih =>
    show afterLastMarker (mc :: mrest) (c :: (x' ++ ((mc :: mrest) ++ t)))
      = some t
    simp only [afterLastMarker, ih]

theorem containsSub_eq_false_of_head_notMem (mc : Char) (mrest : List Char) :
    ∀ u, mc ∉ u → containsSub (mc :: mrest) u = false := by
  intro u
  induction u with
  | nil => intro _; rfl
  | cons h t ih =>
    intro hmem
    have hne : (mc == h) = false := by
      simp only [beq_eq_false_iff_ne, ne_eq]
      intro habs
      exact hmem (by simp [habs])
    simp only [containsSub, listStartsWith, hne, Bool.false_and, Bool.false_or]
    exact ih fun habs => hmem (by simp [habs])

theorem findLabeledNat_skip (lc : Char) (lrest : List Char) :
    ∀ (s t : List Char), (∀ c ∈ s, c ≠ lc) →
      findLabeledNat (lc :: lrest) (s ++ t) = findLabeledNat (lc :: lrest) t := by
  intro s t
  induction s with
  | nil => intro _; rfl
  | cons c s' ih =>
    intro h
    have hne : (lc == c) = false := by
      simp only [beq_eq_false_iff_ne, ne_eq]
      exact fun habs => (h c (by simp)) habs.symm
    show findLabeledNat (lc :: lrest) (c :: (s' ++ t)) = _
    simp only [findLabeledNat]
    have htry : tryLabeledNatHere (lc :: lrest) (c :: (s' ++ t)) = none := by
      unfold tryLabeledNatHere
      rw [if_neg]
      simp [listStartsWith, hne]
    rw [htry]
    exact ih fun c hc => h c (by simp [hc])

theorem tryLabeledNatHere_canonical (label : List Char) (n : Nat)
    (rest : List Char)
    (hrest : rest = [] ∨ ∃ c cs, rest = c :: cs ∧ c.isDigit = false) :
    tryLabeledNatHere label (label ++ (' ' :: (natDigits n ++ rest))) = some n := by
  unfold tryLabeledNatHere
  rw [if_pos (listStartsWith_append_self label _), List.drop_left]
  obtain ⟨d, ds, hdigits⟩ := List.exists_cons_of_ne_nil (natDigits_ne_nil n)
  have hd : d.isDigit = true := natDigits_all_digit n d (by rw [hdigits]; simp)
  have hdropped : ((' ' :: (natDigits n ++ rest)).dropWhile isPySpace)
      = natDigits n ++ rest := by
    rw [List.dropWhile_cons]
    simp only [show isPySpace ' ' = true by decide, if_true]
    rw [hdigits, List.cons_append, List.dropWhile_cons,
      isPySpace_eq_false_of_isDigit hd]
    simp
  rw [hdropped]
  have htake : (natDigits n ++ rest).takeWhile Char.isDigit = natDigits n := by
    rw [takeWhile_append_all Char.isDigit (natDigits n) rest
      (natDigits_all_digit n)]
    rcases hrest with h | ⟨c, cs, hrc, hcd⟩
    · simp [h]
    · rw [hrc, List.takeWhile_cons, hcd]
      simp
  simp only [htake]
  rw [if_neg (by simpa [List.isEmpty_iff] using natDigits_ne_nil n),
    parseNat_natDigits]

theorem findLabeledNat_of_tryHere (label : List Char) (n : Nat) :
    ∀ s, tryLabeledNatHere label s = some n →
      findLabeledNat label s = some n := by
  intro s h
  cases s with
  | nil =>
    exact absurd h (by
      cases label with
      | nil => simp [tryLabeledNatHere, parseNat]
      | cons lc lrest => simp [tryLabeledNatHere, listStartsWith])
  | cons c t => simp [findLabeledNat, h]

/-- The feedback parser on a canonical engine message: any content ending
in `Feedback: greens: <g>, yellows: <y>` parses back exactly `g` and `y`
and yields `0.2·g + 0.1·y`. -/
theorem partial_credit_canonical (completion : List Message) (m : Message)
    (pre : List Char) (g y : Nat)
    (hm : (completion.filter fun x => decide (x.role = Role.user)).getLast?
        = some m)
    (hc : m.content
        = pre ++ ("Feedback:".data
            ++ (" greens: ".data
              ++ (natDigits g ++ (", yellows: ".data ++ natDigits y))))) :
    partial_credit_reward_func completion
      = some ((1/5 : ℚ) * g + (1/10 : ℚ) * y) := by
  obtain ⟨d, ds, hrev, hd⟩ := natDigits_reverse_head y
  have hdne : isPySpace d = false := isPySpace_eq_false_of_isDigit hd
  -- the canonical suffix after the marker
  have hFdecomp : "Feedback:".data = 'F' :: "eedback:".data := by decide
  have hdecomp : m.content
      = pre ++ ('F' :: ("eedback:".data
          ++ (" greens: ".data
            ++ (natDigits g ++ (", yellows: ".data ++ natDigits y))))) := by
    rw [hc, hFdecomp]
    simp [List.cons_append]
  -- left strip stops at the 'F' at the latest
  have hld : m.content.dropWhile isPySpace
      = pre.dropWhile isPySpace ++ ('F' :: ("eedback:".data
          ++ (" greens: ".data
            ++ (natDigits g ++ (", yellows: ".data ++ natDigits y))))) := by
    rw [hdecomp]
    exact dropWhile_append_of_neg _ _ (by decide) _ _
  -- right strip does nothing: the last character is a digit
  have hassoc : pre.dropWhile isPySpace ++ ('F' :: ("eedback:".data
        ++ (" greens: ".data
          ++ (natDigits g ++ (", yellows: ".data ++ natDigits y)))))
      = (pre.dropWhile isPySpace ++ ('F' :: ("eedback:".data
          ++ (" greens: ".data ++ (natDigits g ++ ", yellows: ".data)))))
        ++ natDigits y := by
    simp [List.append_assoc]
  have hstrip : pyStrip m.content
      = pre.dropWhile isPySpace ++ ('F' :: ("eedback:".data
          ++ (" greens: ".data
            ++ (natDigits g ++ (", yellows: ".data ++ natDigits y))))) := by
    unfold pyStrip
    rw [hld, hassoc,
      dropWhile_reverse_append_digits _ (natDigits y) d ds hrev hdne, ← hassoc]
  -- the marker occurs
  have hcontains : containsSub feedbackMarker (pyStrip m.content) = true := by
    rw [hstrip]
    refine containsSub_of_eq_append _ _ (pre.dropWhile isPySpace)
      (" greens: ".data ++ (natDigits g ++ (", yellows: ".data ++ natDigits y)))
      ?_
    simp [feedbackMarker, hFdecomp, List.cons_append]
  -- 'F' occurs nowhere after the marker's own 'F'
  have hnotmem : 'F' ∉ "eedback:".data
      ++ (" greens: ".data
        ++ (natDigits g ++ (", yellows: ".data ++ natDigits y))) := by
    intro hmem
    rcases List.mem_append.mp hmem with h1 | h2
    · exact absurd h1 (by decide)
    rcases List.mem_append.mp h2 with h3 | h4
    · exact absurd h3 (by decide)
    rcases List.mem_append.mp h4 with h5 | h6
    · exact absurd (natDigits_all_digit g 'F' h5) (by decide)
    rcases List.mem_append.mp h6 with h7 | h8
    · exact absurd h7 (by decide)
    · exact absurd (natDigits_all_digit y 'F' h8) (by decide)
  have hafter : afterLastMarker feedbackMarker (pyStrip m.content)
      = some (" greens: ".data
          ++ (natDigits g ++ (", yellows: ".data ++ natDigits y))) := by
    rw [hstrip]
    have hre : pre.dropWhile isPySpace ++ ('F' :: ("eedback:".data
          ++ (" greens: ".data
            ++ (natDigits g ++ (", yellows: ".data ++ natDigits y)))))
        = pre.dropWhile isPySpace ++ (('F' :: "eedback:".data)
            ++ (" greens: ".data
              ++ (natDigits g ++ (", yellows: ".data ++ natDigits y)))) := by
      simp
    rw [hre, show feedbackMarker = 'F' :: "eedback:".data from by decide]
    exact afterLastMarker_sandwich 'F' "eedback:".data _
      (containsSub_eq_false_of_head_notMem 'F' _ _
        (by simpa [List.append_assoc] using hnotmem)) _
  -- stripping the extracted line
  have hT0decomp : " greens: ".data
        ++ (natDigits g ++ (", yellows: ".data ++ natDigits y))
      = ' ' :: ("greens: ".data
          ++ (natDigits g ++ (", yellows: ".data ++ natDigits y))) := by
    rw [show " greens: ".data = ' ' :: "greens: ".data from by decide]
    rfl
  have hassoc2 : "greens: ".data
        ++ (natDigits g ++ (", yellows: ".data ++ natDigits y))
      = ("greens: ".data ++ (natDigits g ++ ", yellows: ".data))
        ++ natDigits y := by
    simp [List.append_assoc]
  have hline : pyStrip (" greens: ".data
        ++ (natDigits g ++ (", yellows: ".data ++ natDigits y)))
      = "greens: ".data ++ (natDigits g ++ (", yellows: ".data ++ natDigits y)) := by
    unfold pyStrip
    have hdl : (" greens: ".data
          ++ (natDigits g ++ (", yellows: ".data ++ natDigits y))).dropWhile isPySpace
        = "greens: ".data
            ++ (natDigits g ++ (", yellows: ".data ++ natDigits y)) := by
      rw [hT0decomp, List.dropWhile_cons]
      simp only [show isPySpace ' ' = true from by decide, if_true]
      rw [show "greens: ".data
            ++ (natDigits g ++ (", yellows: ".data ++ natDigits y))
          = 'g' :: ("reens: ".data
              ++ (natDigits g ++ (", yellows: ".data ++ natDigits y))) from by
        rw [show "greens: ".data = 'g' :: "reens: ".data from by decide]; rfl]
      simp [List.dropWhile_cons, show isPySpace 'g' = false from by decide]
    rw [hdl, hassoc2,
      dropWhile_reverse_append_digits _ (natDigits y) d ds hrev hdne, ← hassoc2]
  -- parse the greens count
  have hgreens : findLabeledNat greensLabel
      ("greens: ".data ++ (natDigits g ++ (", yellows: ".data ++ natDigits y)))
      = some g := by
    have hshape : "greens: ".data
          ++ (natDigits g ++ (", yellows: ".data ++ natDigits y))
        = greensLabel
            ++ (' ' :: (natDigits g ++ (", yellows: ".data ++ natDigits y))) := by
      rw [show "greens: ".data = "greens:".data ++ [' '] from by decide]
      simp [greensLabel, List.append_assoc]
    rw [hshape]
    refine findLabeledNat_of_tryHere _ _ _ ?_
    refine tryLabeledNatHere_canonical greensLabel g _ (Or.inr ⟨',',
      " yellows: ".data ++ natDigits y, ?_, by decide⟩)
    rw [show ", yellows: ".data = ',' :: " yellows: ".data from by decide]
    rfl
  -- parse the yellows count
  have hyellows : findLabeledNat yellowsLabel
      ("greens: ".data ++ (natDigits g ++ (", yellows: ".data ++ natDigits y)))
      = some y := by
    have hshape : "greens: ".data
          ++ (natDigits g ++ (", yellows: ".data ++ natDigits y))
        = ("greens: ".data ++ (natDigits g ++ ", ".data))
            ++ (yellowsLabel ++ (' ' :: (natDigits y ++ []))) := by
      rw [show ", yellows: ".data
          = ", ".data ++ ("yellows:".data ++ [' ']) from by decide]
      simp [yellowsLabel, List.append_assoc]
    have hchars : ∀ c ∈ ("greens: ".data ++ (natDigits g ++ ", ".data)),
        c ≠ 'y' := by
      intro c hcmem
      rcases List.mem_append.mp hcmem with h1 | h2
      · intro habs; subst habs; exact absurd h1 (by decide)
      rcases List.mem_append.mp h2 with h3 | h4
      · exact isDigit_ne_of_not_isDigit (natDigits_all_digit g c h3) (by decide)
      · intro habs; subst habs; exact absurd h4 (by decide)
    rw [hshape, show yellowsLabel = 'y' :: "ellows:".data from by decide,
      findLabeledNat_skip 'y' "ellows:".data _ _ hchars]
    rw [show ('y' :: "ellows:".data) = yellowsLabel from by decide]
    refine findLabeledNat_of_tryHere _ _ _ ?_
    exact tryLabeledNatHere_canonical yellowsLabel y [] (Or.inl rfl)
  -- assemble
  simp only [partial_credit_reward_func, hm]
  rw [if_pos hcontains, hafter]
  simp only [hline, hgreens, hyellows]

/-- C9.  The partial-credit reward equals `0.2·g + 0.1·y` read back from
the most recent environment message whenever that message carries the
literal `Feedback:` marker followed by parseable `greens: <g>` and
`yellows: <y>` counts (in the engine's canonical format, for arbitrary
`g`, `y`); it is 0 when the most recent environment message has no
parseable `Feedback:` marker (e.g. after a format/length violation); and
on the reference feedback `greens: 1, yellows: 2` it equals 0.4 exactly
(so certainly within 1e-3). -/
theorem partial_credit_reward_spec (completion completion' : List Message)
    (m m' : Message) (pre : List Char) (g y : Nat)
    (hm : (completion.filter fun x => decide (x.role = Role.user)).getLast?
        = some m)
    (hc : m.content
        = pre ++ ("Feedback:".data
            ++ (" greens: ".data
              ++ (natDigits g ++ (", yellows: ".data ++ natDigits y)))))
    (hm' : (completion'.filter fun x => decide (x.role = Role.user)).getLast?
        = some m')
    (hnofb : containsSub feedbackMarker (pyStrip m'.content) = false) :
    partial_credit_reward_func completion
        = some ((1/5 : ℚ) * g + (1/10 : ℚ) * y)
      ∧ partial_credit_reward_func completion' = some 0
      ∧ partial_credit_reward_func demoCompletion9 = some (2/5) := by
  refine ⟨partial_credit_canonical completion m pre g y hm hc, ?_, ?_⟩
  · simp only [partial_credit_reward_func, hm']
    rw [if_neg (by simp [hnofb])]
  · rw [partial_credit_canonical demoCompletion9
      ⟨Role.user,
       "You submitted [CRANE].\nFeedback: greens: 1, yellows: 2".data⟩
      "You submitted [CRANE].\n".data 1 2 (by decide)
      (by rw [show natDigits 1 = ['1'] by rw [natDigits, dif_pos (by omega)]; decide,
            show natDigits 2 = ['2'] by rw [natDigits, dif_pos (by omega)]; decide]
          decide)]
    norm_num

/-- Witness for C9: the unit tests' feedback transcript and the
no-feedback transcript. -/
theorem partial_credit_reward_spec_witness :
    partial_credit_reward_func demoCompletion9
        = some ((1/5 : ℚ) * (1 : Nat) + (1/10 : ℚ) * (2 : Nat))
      ∧ partial_credit_reward_func demoNoFeedback9 = some 0
      ∧ partial_credit_reward_func demoCompletion9 = some (2/5) :=
  (partial_credit_reward_spec demoCompletion9 demoNoFeedback9
    ⟨Role.user, "You submitted [CRANE].\nFeedback: greens: 1, yellows: 2".data⟩
    ⟨Role.user, "\x27invalidword\x27 is not a valid word.".data⟩
    "You submitted [CRANE].\n".data 1 2
    (by decide)
    (by rw [show natDigits 1 = ['1'] by rw [natDigits, dif_pos (by omega)]; decide,
          show natDigits 2 = ['2'] by rw [natDigits, dif_pos (by omega)]; decide]
        decide)
    (by decide) (by decide))
